import Mathlib

/-!
Verification development for the hierarchical conversation-memory and
vector-store subsystem of the Agent-Naval repository.

Shallow embedding conventions used throughout this file:
* JavaScript `Date` values are modeled as natural-number timestamps; every
  operation that calls `new Date()` receives the corresponding instant as an
  explicit `now : Nat` argument.
* Store-generated keys (Firebase `push` keys) are modeled by a monotone
  natural-number counter carried in the state.
* JavaScript numbers appearing in vectors and similarity scores are modeled
  as rationals (`Rat`); only lengths and order comparisons matter here.
* Asynchronous operations are modeled as pure functions that additionally
  return an explicit trace (provider calls performed, backoff delays
  inserted); the external provider's behaviour is a function parameter.
-/

/-! ## Message processor configuration (src/memory/constants/message.ts) -/

structure MessageProcessorConfig where
  summaryChunkSize : Nat
  maxRetries : Nat
  retryDelayMs : Nat
deriving Repr, DecidableEq

def MESSAGE_PROCESSOR_CONFIG : MessageProcessorConfig :=
  { summaryChunkSize := 10
    maxRetries := 3
    retryDelayMs := 1000 }

/-- Embeds `MessageProcessor.shouldGenerateSummary`:
`messageCount > 0 && messageCount % this.config.summaryChunkSize === 0`. -/
def shouldGenerateSummary (messageCount : Nat) : Bool :=
  messageCount > 0 && messageCount % MESSAGE_PROCESSOR_CONFIG.summaryChunkSize == 0

/-! ## Summary service (SummaryService.ts) -/

inductive SummaryLevel where
  | recent
  | global
deriving Repr, DecidableEq

structure ConversationSummary where
  id : Nat
  level : SummaryLevel
  content : String
  themes : List String
  segmentIds : Option (List Nat)
  timestamp : Nat
deriving Repr, DecidableEq

/-- Embeds the JavaScript idiom `[...new Set(xs)]`: deduplicate a list keeping
the first occurrence of each element, preserving insertion order. -/
def jsSetDedup (l : List String) : List String :=
  l.foldl (fun acc t => if t ∈ acc then acc else acc ++ [t]) []

/-- Embeds `SummaryService.summarizeContent` (the placeholder implementation in
the source). -/
def summarizeContent (contents : List String) : String :=
  "Global summary of " ++ toString contents.length ++ " summaries"

/-- Embeds `SummaryService.createSummary`: builds the summary record that is
pushed to the store and returned with its assigned id. -/
def createSummary (newId : Nat) (level : SummaryLevel) (content : String)
    (themes : List String) (segmentIds : Option (List Nat)) (now : Nat) :
    ConversationSummary :=
  { id := newId
    level := level
    content := content
    themes := themes
    segmentIds := segmentIds
    timestamp := now }

/-- Embeds `SummaryService.generateGlobalSummary`: summarizes the contents of
the given recent summaries, deduplicates their themes with
`[...new Set(recentSummaries.flatMap(s => s.themes))]`, and calls
`createSummary` with level `global` and no segment ids. -/
def generateGlobalSummary (recentSummaries : List ConversationSummary)
    (newId : Nat) (now : Nat) : ConversationSummary :=
  createSummary newId .global
    (summarizeContent (recentSummaries.map (·.content)))
    (jsSetDedup (recentSummaries.flatMap (·.themes)))
    none now

/-! ### Lemmas about `jsSetDedup` -/

theorem jsSetDedup_go_nodup (l : List String) (acc : List String)
    (hacc : acc.Nodup) :
    (l.foldl (fun acc t => if t ∈ acc then acc else acc ++ [t]) acc).Nodup := by
  induction l generalizing acc with
  | nil => simpa using hacc
  | cons x xs ih =>
    simp only [List.foldl_cons]
    by_cases hx : x ∈ acc
    · rw [if_pos hx]
      exact ih acc hacc
    · rw [if_neg hx]
      refine ih (acc ++ [x]) ?_
      simpa [List.nodup_append, hx] using hacc

theorem jsSetDedup_go_mem (l : List String) (acc : List String) (t : String) :
    t ∈ l.foldl (fun acc t => if t ∈ acc then acc else acc ++ [t]) acc ↔
      t ∈ acc ∨ t ∈ l := by
  induction l generalizing acc with
  | nil => simp
  | cons x xs ih =>
    simp only [List.foldl_cons]
    by_cases hx : x ∈ acc
    · rw [if_pos hx, ih]
      constructor
      · rintro (h | h)
        · exact Or.inl h
        · exact Or.inr (List.mem_cons_of_mem _ h)
      · rintro (h | h)
        · exact Or.inl h
        · rcases List.mem_cons.mp h with rfl | h
          · exact Or.inl hx
          · exact Or.inr h
    · rw [if_neg hx, ih]
      simp only [List.mem_append, List.mem_singleton, List.mem_cons]
      tauto

theorem jsSetDedup_nodup (l : List String) : (jsSetDedup l).Nodup :=
  jsSetDedup_go_nodup l [] List.nodup_nil

theorem jsSetDedup_mem (l : List String) (t : String) :
    t ∈ jsSetDedup l ↔ t ∈ l := by
  unfold jsSetDedup
  rw [jsSetDedup_go_mem]
  simp

/-! ## Conversation store (ConversationService.ts) and message processor
(MessageProcessor.ts)

A single conversation's persisted state. Firebase `push` keys are modeled by
the `nextId` counter; message ids are the naturals assigned from it. -/

inductive MessageRole where
  | system
  | user
  | assistant
  | function
deriving Repr, DecidableEq

/-- A message as stored under a conversation. The source stores tool-call
metadata under two shapes (`tool_calls` from the LLM and `toolCalls` from
storage); the processor treats a message as carrying a pending tool call when
either field is truthy, so a single Boolean models both. -/
structure Msg where
  id : Nat
  role : MessageRole
  content : String
  timestamp : Nat
  themes : List String
  toolCalls : Bool
deriving Repr, DecidableEq

inductive ConversationStatus where
  | active
  | completed
deriving Repr, DecidableEq

structure ConversationMetadata where
  userId : String
  status : ConversationStatus
  startTime : Nat
  lastActivity : Nat
  messageCount : Nat
deriving Repr, DecidableEq

structure ConvState where
  metadata : ConversationMetadata
  messages : List Msg
  nextId : Nat
deriving Repr, DecidableEq

/-- Embeds the metadata part of `ConversationService.createSession`: a fresh
conversation has status `active`, `messageCount = 0` and both timestamps set
to the creation instant. -/
def createSessionState (userId : String) (now : Nat) : ConvState :=
  { metadata :=
      { userId := userId
        status := .active
        startTime := now
        lastActivity := now
        messageCount := 0 }
    messages := []
    nextId := 0 }

/-- Embeds `ConversationService.addMessage`: pushes the message under the
conversation (assigning the next store key), then updates the metadata with a
fresh `lastActivity` and `messageCount = (current stored count) + 1`, and
returns the stored message carrying its assigned id. -/
def convAddMessage (st : ConvState) (m : Msg) (now : Nat) : ConvState × Msg :=
  let stored : Msg := { m with id := st.nextId }
  let st1 : ConvState :=
    { st with messages := st.messages ++ [stored], nextId := st.nextId + 1 }
  let currentCount := st1.metadata.messageCount
  let st2 : ConvState :=
    { st1 with metadata :=
        { st1.metadata with
            lastActivity := now
            messageCount := currentCount + 1 } }
  (st2, stored)

/-- Embeds `MessageProcessor.addMessage`: reads the metadata first, stores the
message through `ConversationService.addMessage`, then persists
`newCount = metadata.messageCount + 1` (computed from the metadata read before
the store) together with a fresh `lastActivity`. The background summary
trigger only writes to the conversation's `summaries` subtree and is
irrelevant to the metadata counter, so it is not part of this state. -/
def procAddMessage (st : ConvState) (m : Msg) (now : Nat) : ConvState × Msg :=
  let metadata := st.metadata
  let r := convAddMessage st m now
  let newCount := metadata.messageCount + 1
  let st2 : ConvState :=
    { r.1 with metadata :=
        { r.1.metadata with
            messageCount := newCount
            lastActivity := now } }
  (st2, r.2)

/-- Embeds `MessageProcessor.processMessagePair`: reads the metadata, stores
the user and assistant messages through `ConversationService.addMessage`, then
persists `newCount = metadata.messageCount + 2`. -/
def procMessagePair (st : ConvState) (userMsg assistantMsg : Msg) (now : Nat) :
    ConvState :=
  let metadata := st.metadata
  let r1 := convAddMessage st userMsg now
  let r2 := convAddMessage r1.1 assistantMsg now
  let newCount := metadata.messageCount + 2
  { r2.1 with metadata :=
      { r2.1.metadata with
          messageCount := newCount
          lastActivity := now } }

/-- Embeds `ConversationService.completeSession`: sets the status to
`completed` and refreshes `lastActivity`. -/
def convCompleteSession (st : ConvState) (now : Nat) : ConvState :=
  { st with metadata :=
      { st.metadata with status := .completed, lastActivity := now } }

/-- The operations of the core that touch a single conversation's persisted
metadata, used to state counter invariants over arbitrary operation
sequences. -/
inductive ConvOp where
  | serviceAdd (m : Msg) (now : Nat)
  | processorAdd (m : Msg) (now : Nat)
  | processorPair (u a : Msg) (now : Nat)
  | completeSession (now : Nat)
deriving Repr

def applyConvOp (st : ConvState) : ConvOp → ConvState
  | .serviceAdd m now => (convAddMessage st m now).1
  | .processorAdd m now => (procAddMessage st m now).1
  | .processorPair u a now => procMessagePair st u a now
  | .completeSession now => convCompleteSession st now

def runConvOps (st : ConvState) (ops : List ConvOp) : ConvState :=
  ops.foldl applyConvOp st

/-! ## Summary window gathering (MessageProcessor.getMessagesForSummary) -/

/-- Stable insertion into a list sorted by descending timestamp; a message is
placed before the first strictly older entry, so messages with equal
timestamps keep their original relative order (JavaScript `sort` is stable). -/
def insertByTimestampDesc (m : Msg) : List Msg → List Msg
  | [] => [m]
  | x :: xs =>
      if m.timestamp ≥ x.timestamp then m :: x :: xs
      else x :: insertByTimestampDesc m xs

/-- Stable sort by descending timestamp, embedding the comparator
`(a, b) => new Date(b.timestamp).getTime() - new Date(a.timestamp).getTime()`. -/
def sortByTimestampDesc : List Msg → List Msg
  | [] => []
  | x :: xs => insertByTimestampDesc x (sortByTimestampDesc xs)

/-- Embeds `ConversationService.getLastMessages`: reads all stored messages,
sorts them newest-first by timestamp and returns the first `count` of them. -/
def getLastMessages (messages : List Msg) (count : Nat) : List Msg :=
  (sortByTimestampDesc messages).take count

/-- Embeds `MessageProcessor.getMessagesForSummary`: fetches the last 10
messages, and when `messages[messages.length - 1]` is an assistant message
with tool calls, fetches the last 11 messages and returns
`extraContext.slice(-11)` if more than 10 came back, otherwise the original
window. An empty fetch leaves `lastMessage` undefined, so the optional-chained
role test fails and the unextended window is returned. -/
def getMessagesForSummary (stored : List Msg) : List Msg :=
  let messages := getLastMessages stored 10
  match messages.getLast? with
  | none => messages
  | some lastMessage =>
      if lastMessage.role = .assistant ∧ lastMessage.toolCalls then
        let extraContext := getLastMessages stored 11
        if extraContext.length > 10 then
          extraContext.drop (extraContext.length - 11)
        else messages
      else messages

/-! ## Concrete fixtures for the conversation-side claims -/

def sampleUserMsg (i : Nat) : Msg :=
  { id := i, role := .user, content := "u", timestamp := i, themes := [],
    toolCalls := false }

/-- A store of 11 messages with timestamps 1..11: message 10 is an assistant
message carrying a pending tool call, message 11 is the assistant-role
tool-response message that resolves it, and all other messages are plain user
messages. -/
def toolCallStore : List Msg :=
  [sampleUserMsg 1, sampleUserMsg 2, sampleUserMsg 3, sampleUserMsg 4,
   sampleUserMsg 5, sampleUserMsg 6, sampleUserMsg 7, sampleUserMsg 8,
   sampleUserMsg 9,
   { id := 10, role := .assistant, content := "call", timestamp := 10,
     themes := [], toolCalls := true },
   { id := 11, role := .assistant, content := "result", timestamp := 11,
     themes := [], toolCalls := false }]

/-- C3: the summary window gathered for a 10-message chunk ending in an
assistant message with a pending tool call, whose resolving next message is
already stored, contains only 10 messages — not the 11 required by the
specification (and by the source's own comments, which say the extra fetch is
meant to include the tool response). The oldest message of the claimed
11-message set is dropped: `getLastMessages` returns newest-first, so the code
inspects the oldest message of the window instead of the newest and extends
backwards in time. -/
theorem getMessagesForSummary_toolcall_window_is_10 :
    (getMessagesForSummary toolCallStore).length = 10 ∧
      sampleUserMsg 1 ∉ getMessagesForSummary toolCallStore := by
  constructor
  · decide
  · decide

/-- C4: `shouldGenerateSummary k` is true exactly when `k` is positive and a
multiple of the configured chunk size; with the default chunk size 10 it is
false at 0, 1, 9, 11 and true at 10, 20. -/
theorem shouldGenerateSummary_iff :
    (∀ k : Nat, shouldGenerateSummary k = true ↔
      0 < k ∧ k % MESSAGE_PROCESSOR_CONFIG.summaryChunkSize = 0) ∧
    shouldGenerateSummary 0 = false ∧ shouldGenerateSummary 1 = false ∧
    shouldGenerateSummary 9 = false ∧ shouldGenerateSummary 11 = false ∧
    shouldGenerateSummary 10 = true ∧ shouldGenerateSummary 20 = true := by
  refine ⟨fun k => ?_, by decide, by decide, by decide, by decide,
    by decide, by decide⟩
  simp [shouldGenerateSummary, MESSAGE_PROCESSOR_CONFIG]

/-- C1 counterexample: `ConversationService.addMessage` does modify the
conversation's `messageCount` metadata field — on a fresh conversation it
changes the persisted count from 0 to 1. -/
theorem convAddMessage_modifies_messageCount :
    ¬ ((convAddMessage (createSessionState "u1" 0)
          (sampleUserMsg 1) 1).1.metadata.messageCount =
        (createSessionState "u1" 0).metadata.messageCount) := by
  decide

/-- C1 amended: `ConversationService.addMessage` appends the message, returns
it with its assigned id, and additionally updates the conversation metadata:
it sets `messageCount` to the currently stored count plus one and refreshes
`lastActivity`, leaving user, status and start time unchanged. The Message
Processor then performs its own counter update as a further separate step. -/
theorem convAddMessage_spec (st : ConvState) (m : Msg) (now : Nat) :
    (convAddMessage st m now).1.messages =
        st.messages ++ [{ m with id := st.nextId }] ∧
    (convAddMessage st m now).1.metadata.messageCount =
        st.metadata.messageCount + 1 ∧
    (convAddMessage st m now).1.metadata.lastActivity = now ∧
    (convAddMessage st m now).1.metadata.userId = st.metadata.userId ∧
    (convAddMessage st m now).1.metadata.status = st.metadata.status ∧
    (convAddMessage st m now).1.metadata.startTime = st.metadata.startTime ∧
    (convAddMessage st m now).2 = { m with id := st.nextId } :=
  ⟨rfl, rfl, rfl, rfl, rfl, rfl, rfl⟩

theorem procAddMessage_count (st : ConvState) (m : Msg) (now : Nat) :
    (procAddMessage st m now).1.metadata.messageCount =
      st.metadata.messageCount + 1 := rfl

theorem procAdd_foldl_count (calls : List (Msg × Nat)) :
    ∀ st : ConvState,
      (calls.foldl (fun s c =>
          (procAddMessage s c.1 c.2).1) st).metadata.messageCount =
        st.metadata.messageCount + calls.length := by
  induction calls with
  | nil => intro st; simp
  | cons c cs ih =>
    intro st
    simp only [List.foldl_cons, List.length_cons]
    rw [ih, procAddMessage_count]
    omega

theorem applyConvOp_count_mono (st : ConvState) (op : ConvOp) :
    st.metadata.messageCount ≤ (applyConvOp st op).metadata.messageCount := by
  cases op with
  | serviceAdd m now => exact Nat.le_succ _
  | processorAdd m now => exact Nat.le_succ _
  | processorPair u a now => exact Nat.le_add_right _ 2
  | completeSession now => exact Nat.le_refl _

/-- C7: starting from a freshly created session, N sequential
`MessageProcessor.addMessage` calls leave the persisted `messageCount` equal
to N, and no operation of the core (service-level or processor-level message
append, message-pair processing, or session completion) ever decreases the
persisted `messageCount`. -/
theorem messageCount_sequential_and_monotone :
    (∀ (userId : String) (t0 : Nat) (calls : List (Msg × Nat)),
      (calls.foldl (fun s c => (procAddMessage s c.1 c.2).1)
          (createSessionState userId t0)).metadata.messageCount =
        calls.length) ∧
    (∀ (st : ConvState) (ops : List ConvOp),
      st.metadata.messageCount ≤
        (runConvOps st ops).metadata.messageCount) := by
  constructor
  · intro userId t0 calls
    rw [procAdd_foldl_count]
    simp [createSessionState]
  · intro st ops
    induction ops generalizing st with
    | nil => exact Nat.le_refl _
    | cons op ops ih =>
      exact Nat.le_trans (applyConvOp_count_mono st op) (ih (applyConvOp st op))

def themesAB : ConversationSummary :=
  { id := 1, level := .recent, content := "s1", themes := ["a", "b"],
    segmentIds := none, timestamp := 1 }

def themesBC : ConversationSummary :=
  { id := 2, level := .recent, content := "s2", themes := ["b", "c"],
    segmentIds := none, timestamp := 2 }

def themesD : ConversationSummary :=
  { id := 3, level := .recent, content := "s3", themes := ["d"],
    segmentIds := none, timestamp := 3 }

/-- C8: the themes of the summary produced by `generateGlobalSummary` are
duplicate-free and contain exactly the strings occurring in some input
summary's theme list (the deduplicated set union); on inputs with theme lists
`[a, b]`, `[b, c]`, `[d]` the produced theme list is exactly `a, b, c, d`. -/
theorem generateGlobalSummary_theme_union :
    (∀ (summaries : List ConversationSummary) (newId now : Nat),
      (generateGlobalSummary summaries newId now).themes.Nodup ∧
      (∀ t, t ∈ (generateGlobalSummary summaries newId now).themes ↔
        ∃ s ∈ summaries, t ∈ s.themes) ∧
      (generateGlobalSummary summaries newId now).level = .global) ∧
    (generateGlobalSummary [themesAB, themesBC, themesD] 9 9).themes =
      ["a", "b", "c", "d"] := by
  constructor
  · intro summaries newId now
    refine ⟨jsSetDedup_nodup _, fun t => ?_, rfl⟩
    rw [show (generateGlobalSummary summaries newId now).themes =
          jsSetDedup (summaries.flatMap (·.themes)) from rfl]
    rw [jsSetDedup_mem, List.mem_flatMap]
  · decide

/-! ## Vector operations layer (VectorService.ts, constants/vector.ts)

Vector ids are normalized to strings by `convertToStringId` in the source, so
the model uses `String` ids throughout. Vector components and similarity
scores are modeled as rationals. -/

inductive VectorStoreErrorType where
  | connectionError
  | validationError
  | operationError
  | indexError
  | batchError
deriving Repr, DecidableEq

/-- A thrown value in the vector layer: either a plain `Error` carrying its
message, or a structured `VectorStoreError` built by `handleError`, which
keeps the value it wrapped as `originalError`. -/
inductive VErr where
  | err (msg : String)
  | store (etype : VectorStoreErrorType) (message : String) (retryable : Bool)
      (originalError : VErr)
deriving Repr, DecidableEq

/-- Reads the `message` property of a thrown value; both plain errors and
`VectorStoreError` records expose one. -/
def VErr.messageOf : VErr → String
  | .err msg => msg
  | .store _ message _ _ => message

def VErr.etypeOf : VErr → Option VectorStoreErrorType
  | .err _ => none
  | .store t _ _ _ => some t

def VErr.retryableOf : VErr → Option Bool
  | .err _ => none
  | .store _ _ r _ => some r

/-- Substring test on character lists, embedding
`String.prototype.includes`. -/
def charsContain (needle : List Char) : List Char → Bool
  | [] => needle.isEmpty
  | c :: rest => needle.isPrefixOf (c :: rest) || charsContain needle rest

def stringIncludes (hay needle : String) : Bool :=
  charsContain needle.toList hay.toList

/-- Embeds `VectorService.handleError`: wraps a thrown value with the
configured type and message; `retryable` is true for connection- and
operation-classified errors and for wrapped values whose message contains
"timeout". -/
def handleError (error : VErr) (etype : VectorStoreErrorType)
    (message : String) : VErr :=
  .store etype message
    (etype == .connectionError || etype == .operationError ||
      stringIncludes error.messageOf "timeout")
    error

def exceptErrType : Except VErr α → Option VectorStoreErrorType
  | .error e => e.etypeOf
  | .ok _ => none

def exceptErrRetryable : Except VErr α → Option Bool
  | .error e => e.retryableOf
  | .ok _ => none

def exceptIsError : Except VErr α → Bool
  | .error _ => true
  | .ok _ => false

structure VectorRetryConfig where
  maxAttempts : Nat
  backoffMs : Nat
deriving Repr, DecidableEq

def DEFAULT_RETRY_CONFIG : VectorRetryConfig :=
  { maxAttempts := 3, backoffMs := 1000 }

structure BatchConfig where
  MAX_BATCH_SIZE : Nat
  MAX_CONCURRENT_BATCHES : Nat
  CHUNK_SIZE : Nat
deriving Repr, DecidableEq

def BATCH_CONFIG : BatchConfig :=
  { MAX_BATCH_SIZE := 100, MAX_CONCURRENT_BATCHES := 3, CHUNK_SIZE := 20 }

/-- Embeds the `VECTOR_INDICES` configuration record: the configured index
names with their dimensionalities (urls and tokens are deployment credentials
and are not part of the model). -/
def VECTOR_INDICES : List (String × Nat) :=
  [("KNOWLEDGE", 1024), ("CONVERSATIONS", 1024)]

/-- Embeds `VectorService.getIndexDimensions` as a partial lookup; `none`
corresponds to the `Invalid index name` throw. -/
def getIndexDimensionsOpt (indexName : String) : Option Nat :=
  VECTOR_INDICES.lookup indexName

/-- The `indices` map of the service is populated from the keys of
`VECTOR_INDICES`, so `getIndex` succeeds exactly on configured names. -/
def indexExists (indexName : String) : Bool :=
  (VECTOR_INDICES.lookup indexName).isSome

/-- Embeds `VectorService.validateVector` (with `getIndexDimensions`): throws
for unknown index names and for dimension mismatches; the `Array.isArray`
guard always succeeds in this typed model. -/
def validateVector (indexName : String) (vector : List Rat) :
    Except VErr Unit :=
  match getIndexDimensionsOpt indexName with
  | none => .error (.err "Invalid index name")
  | some expectedDimensions =>
      if vector.length ≠ expectedDimensions then
        .error (.err "Vector dimensions mismatch")
      else .ok ()

/-- Outcome of a retried operation together with its observable trace: the
number of attempts performed (each attempt is one provider call) and the
backoff delays inserted between attempts, in order. -/
structure RetryTrace (α : Type) where
  result : Except VErr α
  attempts : Nat
  delays : List Nat
deriving Repr

/-- Embeds the loop of `VectorService.withRetry`. `op n` is the outcome of the
n-th attempt of the wrapped operation; `fuel` counts the loop iterations still
allowed and starts at `maxAttempts`, so the `fuel = 0` case is unreachable. -/
def withRetryGo (op : Nat → Except VErr α) (etype : VectorStoreErrorType)
    (emsg : String) : Nat → Nat → List Nat → RetryTrace α
  | attempt, 0, delays =>
      { result := .error (handleError (.err "no attempts") etype emsg)
        attempts := attempt - 1, delays := delays }
  | attempt, fuel + 1, delays =>
      match op attempt with
      | .ok v => { result := .ok v, attempts := attempt, delays := delays }
      | .error e =>
          if etype = .validationError then
            { result := .error (handleError e etype emsg)
              attempts := attempt, delays := delays }
          else if attempt = DEFAULT_RETRY_CONFIG.maxAttempts then
            { result := .error (handleError e etype emsg)
              attempts := attempt, delays := delays }
          else
            withRetryGo op etype emsg (attempt + 1) fuel
              (delays ++ [DEFAULT_RETRY_CONFIG.backoffMs * 2 ^ (attempt - 1)])

/-- Embeds `VectorService.withRetry` with the default retry configuration. -/
def withRetry (op : Nat → Except VErr α) (etype : VectorStoreErrorType)
    (emsg : String) : RetryTrace α :=
  withRetryGo op etype emsg 1 DEFAULT_RETRY_CONFIG.maxAttempts []

structure VectorEntry where
  id : String
  vector : List Rat
  metadata : List (String × String)
deriving Repr, DecidableEq

/-- Observable trace of a single-vector operation: its returned or thrown
value, the number of provider calls performed, and the backoff delays
inserted. -/
structure OpTrace (α : Type) where
  result : Except VErr α
  providerCalls : Nat
  delays : List Nat
deriving Repr

/-- Embeds `VectorService.upsertVector`: validates dimensions, then performs
the provider upsert under `withRetry` with an `OPERATION_ERROR` config; any
escaping throw (from validation or from the exhausted retry) is wrapped once
more by the surrounding catch via `handleError` with the same config. `getIndex`
cannot fail once validation passed, because the `indices` map and the
dimension table share their keys. The source interpolates the entry id and
index name into the message; the model uses the constant prefix. -/
def upsertVector (indexName : String) (entry : VectorEntry)
    (provider : Nat → Except VErr Unit) : OpTrace Unit :=
  let emsg := "Failed to upsert vector"
  match validateVector indexName entry.vector with
  | .error e =>
      { result := .error (handleError e .operationError emsg)
        providerCalls := 0, delays := [] }
  | .ok _ =>
      let r := withRetry provider .operationError emsg
      match r.result with
      | .ok v =>
          { result := .ok v, providerCalls := r.attempts, delays := r.delays }
      | .error e =>
          { result := .error (handleError e .operationError emsg)
            providerCalls := r.attempts, delays := r.delays }

structure SimilaritySearchResult where
  id : String
  score : Rat
  vector : List Rat
  metadata : List (String × String)
deriving Repr, DecidableEq

structure QueryOptions where
  topK : Option Nat
  threshold : Option Rat
deriving Repr, DecidableEq

structure DefaultQueryOptions where
  topK : Nat
  threshold : Rat
deriving Repr, DecidableEq

def DEFAULT_QUERY_OPTIONS : DefaultQueryOptions :=
  { topK := 5, threshold := 7 / 10 }

/-- Embeds `VectorService.processQueryResults`: drops results whose score is
below the threshold (the subsequent mapping only re-packages fields). -/
def processQueryResults (results : List SimilaritySearchResult)
    (threshold : Rat) : List SimilaritySearchResult :=
  results.filter (fun r => threshold ≤ r.score)

/-- Embeds `VectorService.queryVectors`: validates dimensions, executes the
provider query under `withRetry` (`executeQuery`), then filters the response
by the similarity threshold. The filter-string construction only shapes the
provider request and is left inside the opaque provider. -/
def queryVectors (indexName : String) (vector : List Rat)
    (options : QueryOptions)
    (provider : Nat → Except VErr (List SimilaritySearchResult)) :
    OpTrace (List SimilaritySearchResult) :=
  let emsg := "Failed to query vectors"
  match validateVector indexName vector with
  | .error e =>
      { result := .error (handleError e .operationError emsg)
        providerCalls := 0, delays := [] }
  | .ok _ =>
      let r := withRetry provider .operationError emsg
      match r.result with
      | .ok results =>
          let threshold := options.threshold.getD DEFAULT_QUERY_OPTIONS.threshold
          { result := .ok (processQueryResults results threshold)
            providerCalls := r.attempts, delays := r.delays }
      | .error e =>
          { result := .error (handleError e .operationError emsg)
            providerCalls := r.attempts, delays := r.delays }

/-! ## Batched vector operations (VectorService.ts, batch section) -/

structure BatchChunk (α : Type) where
  items : List α
  startIndex : Nat
deriving Repr, DecidableEq

/-- Embeds the loop of `VectorService.createBatchChunks`: slices the input
into consecutive `CHUNK_SIZE`-sized pieces, recording each piece's starting
position in the original list. -/
def createBatchChunksGo {α : Type} : List α → Nat → List (BatchChunk α)
  | [], _ => []
  | x :: xs, start =>
      { items := (x :: xs).take BATCH_CONFIG.CHUNK_SIZE, startIndex := start } ::
        createBatchChunksGo ((x :: xs).drop BATCH_CONFIG.CHUNK_SIZE)
          (start + BATCH_CONFIG.CHUNK_SIZE)
termination_by l _ => l.length
decreasing_by
  simp only [BATCH_CONFIG, List.length_drop, List.length_cons]
  omega

/-- Embeds `VectorService.createBatchChunks`. -/
def createBatchChunks {α : Type} (items : List α) : List (BatchChunk α) :=
  createBatchChunksGo items 0

inductive BatchOp where
  | upsert
  | delete
deriving Repr, DecidableEq

/-- A call issued to the vector provider, with its full payload. -/
inductive ProviderCall where
  | upsertCall (items : List VectorEntry)
  | deleteCall (ids : List String)
deriving Repr, DecidableEq

def providerCallSize : ProviderCall → Nat
  | .upsertCall items => items.length
  | .deleteCall ids => ids.length

structure BatchChunkStats where
  processedItems : Nat
  successfulItems : Nat
  failedItems : Nat
deriving Repr, DecidableEq

/-- Embeds `BatchResult`; on success the source leaves `failedIndices` and
`error` absent, modeled as `[]` and `none`. -/
structure BatchResult where
  success : Bool
  failedIndices : List Nat
  error : Option VErr
  stats : BatchChunkStats
deriving Repr, DecidableEq

/-- Embeds the per-chunk validation loop
`chunk.items.forEach(item => this.validateVector(indexName, item.vector))`:
the first invalid vector aborts the loop with its error. -/
def validateChunkItems (indexName : String) (items : List VectorEntry) :
    Except VErr Unit :=
  items.foldl
    (fun acc item => acc.bind (fun _ => validateVector indexName item.vector))
    (.ok ())

/-- Embeds `VectorService.processBatchChunk`: validates every vector when
upserting, then performs the chunk's provider operation under `withRetry`
with a `BATCH_ERROR` config; any escaping throw is caught and converted into
a failure result reporting all of the chunk's original positions as failed.
The second component is the list of provider calls performed (one per retry
attempt; none when validation failed). -/
def processBatchChunk (indexName : String) (op : BatchOp)
    (chunk : BatchChunk VectorEntry) (provider : Nat → Except VErr Unit) :
    BatchResult × List ProviderCall :=
  let emsg := "Failed to process batch chunk"
  let validation : Except VErr Unit :=
    match op with
    | .upsert => validateChunkItems indexName chunk.items
    | .delete => .ok ()
  match validation with
  | .error e =>
      ({ success := false
         failedIndices :=
           (List.range chunk.items.length).map (fun i => chunk.startIndex + i)
         error := some (handleError e .batchError emsg)
         stats := { processedItems := chunk.items.length
                    successfulItems := 0
                    failedItems := chunk.items.length } }, [])
  | .ok _ =>
      let r := withRetry provider .batchError emsg
      let payload : ProviderCall :=
        match op with
        | .upsert => .upsertCall chunk.items
        | .delete => .deleteCall (chunk.items.map (·.id))
      let calls := List.replicate r.attempts payload
      match r.result with
      | .ok _ =>
          ({ success := true, failedIndices := [], error := none
             stats := { processedItems := chunk.items.length
                        successfulItems := chunk.items.length
                        failedItems := 0 } }, calls)
      | .error e =>
          ({ success := false
             failedIndices :=
               (List.range chunk.items.length).map
                 (fun i => chunk.startIndex + i)
             error := some (handleError e .batchError emsg)
             stats := { processedItems := chunk.items.length
                        successfulItems := 0
                        failedItems := chunk.items.length } }, calls)

/-- Embeds the concurrency-bounded loop of `processBatchChunks`: chunks are
taken in consecutive groups of at most `MAX_CONCURRENT_BATCHES`; each group is
run with `Promise.all`, which preserves order, and groups run one after
another. -/
def concurrencyGroups {α : Type} : List α → List (List α)
  | [] => []
  | x :: xs =>
      (x :: xs).take BATCH_CONFIG.MAX_CONCURRENT_BATCHES ::
        concurrencyGroups ((x :: xs).drop BATCH_CONFIG.MAX_CONCURRENT_BATCHES)
termination_by l => l.length
decreasing_by
  simp only [BATCH_CONFIG, List.length_drop, List.length_cons]
  omega

/-- Embeds `BatchOperationStats` (wall-clock start/end/duration fields are
not modeled). -/
structure BatchOperationStats where
  totalItems : Nat
  processedItems : Nat
  successfulItems : Nat
  failedItems : Nat
deriving Repr, DecidableEq

/-- Embeds `BatchOperationResult`; an absent `errors` field is modeled as the
empty list. -/
structure BatchOperationResult where
  success : Bool
  errors : List (Nat × VErr)
  stats : BatchOperationStats
deriving Repr, DecidableEq

/-- Embeds `VectorService.processBatchChunks`: processes every chunk (group
by group), accumulates the stats of all chunk results, aggregates the failed
positions of unsuccessful chunks into the `errors` list, and reports overall
success exactly when that list is empty. The provider is indexed by chunk so
each chunk's retry attempts are independent. -/
def processBatchChunks (indexName : String) (op : BatchOp)
    (chunks : List (BatchChunk VectorEntry))
    (provider : BatchChunk VectorEntry → Nat → Except VErr Unit) :
    BatchOperationResult × List ProviderCall :=
  let pairs := (concurrencyGroups chunks).flatMap
    (fun group => group.map (fun c => processBatchChunk indexName op c (provider c)))
  let results := pairs.map (·.1)
  let calls := pairs.flatMap (·.2)
  let totalItems := (chunks.map (·.items.length)).sum
  let errors := (results.filter (fun r => !r.success)).flatMap
    (fun r => r.failedIndices.map (fun i => (i, r.error.getD (.err "missing"))))
  ({ success := errors.length == 0
     errors := errors
     stats := { totalItems := totalItems
                processedItems :=
                  results.foldl (fun acc r => acc + r.stats.processedItems) 0
                successfulItems :=
                  results.foldl (fun acc r => acc + r.stats.successfulItems) 0
                failedItems :=
                  results.foldl (fun acc r => acc + r.stats.failedItems) 0 } },
   calls)

/-- Embeds `VectorService.upsertBatch`: rejects empty and oversized batches
(the thrown error is wrapped by the outer catch with a `BATCH_ERROR` config)
before any provider interaction, then chunks the entries and processes the
chunks. An unknown index name also throws before any provider call. -/
def upsertBatch (indexName : String) (entries : List VectorEntry)
    (provider : BatchChunk VectorEntry → Nat → Except VErr Unit) :
    Except VErr BatchOperationResult × List ProviderCall :=
  let emsg := "Failed to process batch upsert"
  if entries.length = 0 then
    (.error (handleError (.err "Empty batch") .batchError emsg), [])
  else if entries.length > BATCH_CONFIG.MAX_BATCH_SIZE then
    (.error (handleError (.err "Batch size exceeds maximum") .batchError emsg),
     [])
  else if indexExists indexName then
    let r := processBatchChunks indexName .upsert (createBatchChunks entries)
      provider
    (.ok r.1, r.2)
  else
    (.error (handleError (.err "Invalid index name") .batchError emsg), [])

/-- Embeds `VectorService.deleteBatch`: rejects empty and oversized batches
before any provider interaction, then deletes all ids in a single provider
call under `withRetry`; a retry-exhausted failure is caught by the inner
catch and converted into a failure result reporting every input position
(the call itself still resolves). -/
def deleteBatch (indexName : String) (entries : List VectorEntry)
    (provider : Nat → Except VErr Unit) :
    Except VErr BatchOperationResult × List ProviderCall :=
  let outerMsg := "Failed to process batch delete"
  let emsg := "Failed to delete vectors"
  if entries.length = 0 then
    (.error (handleError (.err "Empty batch") .batchError outerMsg), [])
  else if entries.length > BATCH_CONFIG.MAX_BATCH_SIZE then
    (.error (handleError (.err "Batch size exceeds maximum") .batchError
        outerMsg), [])
  else if indexExists indexName then
    let r := withRetry provider .batchError emsg
    let calls := List.replicate r.attempts
      (ProviderCall.deleteCall (entries.map (·.id)))
    match r.result with
    | .ok _ =>
        (.ok { success := true, errors := []
               stats := { totalItems := entries.length
                          processedItems := entries.length
                          successfulItems := entries.length
                          failedItems := 0 } }, calls)
    | .error e =>
        (.ok { success := false
               errors := (List.range entries.length).map
                 (fun i => (i, handleError e .batchError emsg))
               stats := { totalItems := entries.length
                          processedItems := entries.length
                          successfulItems := 0
                          failedItems := entries.length } }, calls)
  else
    (.error (handleError (.err "Invalid index name") .batchError outerMsg), [])

/-! ## Topic segmentation (TopicService.ts)

The synthetic `initial` current-topic object returned by
`ConversationService.createSession` lives only in the in-memory session
context and is never written to the `topics` subtree, so the persisted topic
store of a fresh conversation is empty. -/

inductive SegmentStatus where
  | active
  | completed
deriving Repr, DecidableEq

structure TopicSegment where
  id : Nat
  startMessageId : Nat
  themes : List String
  messageCount : Nat
  status : SegmentStatus
  endMessageId : Option Nat
  summary : Option String
deriving Repr, DecidableEq

structure TopicState where
  segments : List TopicSegment
  nextId : Nat
deriving Repr, DecidableEq

def initialTopicState : TopicState := { segments := [], nextId := 0 }

/-- Embeds `TopicService.createTopicSegment`: pushes a new segment with
status `active` and `messageCount = 1` and returns it with its assigned id. -/
def createTopicSegment (st : TopicState) (startMessageId : Nat)
    (themes : List String) : TopicState × TopicSegment :=
  let segment : TopicSegment :=
    { id := st.nextId
      startMessageId := startMessageId
      themes := themes
      messageCount := 1
      status := .active
      endMessageId := none
      summary := none }
  ({ segments := st.segments ++ [segment], nextId := st.nextId + 1 }, segment)

/-- Embeds `TopicService.completeTopicSegment`: a merge-update at
`topics/{topicId}` setting the end message, status `completed` and the
optional summary. (A merge at an id that is not stored would create a stub
that is likewise not active; the model covers updates of stored segments.) -/
def completeTopicSegment (st : TopicState) (topicId : Nat)
    (endMessageId : Nat) (summary : Option String) : TopicState :=
  { st with segments := st.segments.map (fun s =>
      if s.id = topicId then
        { s with endMessageId := some endMessageId
                 status := .completed
                 summary := summary }
      else s) }

inductive TopicOp where
  | create (startMessageId : Nat) (themes : List String)
  | complete (topicId : Nat) (endMessageId : Nat) (summary : Option String)
deriving Repr

def applyTopicOp (st : TopicState) : TopicOp → TopicState
  | .create s t => (createTopicSegment st s t).1
  | .complete id e s => completeTopicSegment st id e s

def runTopicOps (st : TopicState) (ops : List TopicOp) : TopicState :=
  ops.foldl applyTopicOp st

def activeSegmentCount (st : TopicState) : Nat :=
  (st.segments.filter (fun s => s.status == .active)).length

/-- Well-formedness of a topic store: every stored segment's id was assigned
below the id counter, and no two stored segments share an id. This holds in
every state reachable from the initial store. -/
def TopicState.wf (st : TopicState) : Prop :=
  (∀ s ∈ st.segments, s.id < st.nextId) ∧ (st.segments.map (·.id)).Nodup

theorem applyTopicOp_nextId_mono (st : TopicState) (op : TopicOp) :
    st.nextId ≤ (applyTopicOp st op).nextId := by
  cases op with
  | create s t => exact Nat.le_succ _
  | complete id e s => exact Nat.le_refl _

theorem applyTopicOp_wf (st : TopicState) (op : TopicOp) (hwf : st.wf) :
    (applyTopicOp st op).wf := by
  obtain ⟨hlt, hnd⟩ := hwf
  cases op with
  | create s t =>
    constructor
    · intro seg hseg
      simp only [applyTopicOp, createTopicSegment, List.mem_append,
        List.mem_singleton] at hseg
      rcases hseg with h | rfl
      · exact Nat.lt_succ_of_lt (hlt _ h)
      · exact Nat.lt_succ_self _
    · simp only [applyTopicOp, createTopicSegment, List.map_append,
        List.map_cons, List.map_nil]
      rw [List.nodup_append]
      refine ⟨hnd, List.nodup_singleton _, ?_⟩
      intro a ha hb
      obtain ⟨s0, hs0, rfl⟩ := List.mem_map.mp ha
      simp only [List.mem_singleton] at hb
      exact absurd hb (Nat.ne_of_lt (hlt s0 hs0))
  | complete tid em sm =>
    constructor
    · intro seg hseg
      simp only [applyTopicOp, completeTopicSegment, List.mem_map] at hseg
      obtain ⟨s0, hs0, hmap⟩ := hseg
      have := hlt s0 hs0
      by_cases hid : s0.id = tid
      · subst hmap
        simpa [hid] using this
      · subst hmap
        simpa [hid] using this
    · simp only [applyTopicOp, completeTopicSegment, List.map_map]
      have heq : ∀ x ∈ st.segments,
          ((fun q : TopicSegment => q.id) ∘ fun q : TopicSegment =>
            if q.id = tid then
              { q with endMessageId := some em
                       status := SegmentStatus.completed
                       summary := sm } else q) x =
          (fun q : TopicSegment => q.id) x := by
        intro x hx
        by_cases hid : x.id = tid <;> simp [Function.comp, hid]
      rw [List.map_congr_left heq]
      exact hnd

theorem applyTopicOp_completed_stays (st : TopicState) (op : TopicOp)
    (i : Nat) (hi : i < st.nextId)
    (h : ∀ s ∈ st.segments, s.id = i → s.status = .completed) :
    ∀ s ∈ (applyTopicOp st op).segments, s.id = i → s.status = .completed := by
  cases op with
  | create sm th =>
    intro seg hseg hid
    simp only [applyTopicOp, createTopicSegment, List.mem_append,
      List.mem_singleton] at hseg
    rcases hseg with hmem | rfl
    · exact h seg hmem hid
    · exfalso
      have hni : st.nextId = i := hid
      omega
  | complete id e s =>
    intro seg hseg hid
    simp only [applyTopicOp, completeTopicSegment, List.mem_map] at hseg
    obtain ⟨s0, hs0, hmap⟩ := hseg
    by_cases hcase : s0.id = id
    · subst hmap
      simp [hcase]
    · subst hmap
      simp only [hcase, if_false, ite_false] at hid ⊢
      exact h s0 hs0 hid

theorem runTopicOps_completed_stays (ops : List TopicOp) :
    ∀ (st : TopicState) (i : Nat), i < st.nextId →
      (∀ s ∈ st.segments, s.id = i → s.status = .completed) →
      ∀ s ∈ (runTopicOps st ops).segments, s.id = i → s.status = .completed := by
  induction ops with
  | nil => intro st i hi h; exact h
  | cons op ops ih =>
    intro st i hi h
    exact ih (applyTopicOp st op) i
      (Nat.lt_of_lt_of_le hi (applyTopicOp_nextId_mono st op))
      (applyTopicOp_completed_stays st op i hi h)

theorem createTopicSegment_active_count (st : TopicState)
    (startMessageId : Nat) (themes : List String) :
    activeSegmentCount (createTopicSegment st startMessageId themes).1 =
      activeSegmentCount st + 1 := by
  simp [activeSegmentCount, createTopicSegment, List.filter_append]

theorem completeTopicSegment_active_count (st : TopicState)
    (topicId endMessageId : Nat) (summary : Option String) :
    activeSegmentCount (completeTopicSegment st topicId endMessageId summary) ≤
      activeSegmentCount st := by
  unfold activeSegmentCount completeTopicSegment
  rw [← List.countP_eq_length_filter, ← List.countP_eq_length_filter,
    List.countP_map]
  refine List.countP_mono_left fun x hx hpx => ?_
  by_cases hcase : x.id = topicId
  · simp [Function.comp, hcase] at hpx
  · simpa [Function.comp, hcase] using hpx

/-- C9 counterexample: two consecutive `createTopicSegment` calls without an
intervening completion leave two segments with status `active`, so "at most
one active TopicSegment in every reachable state" fails for the operation
sequence create, create. -/
theorem two_creates_give_two_active_segments :
    ¬ (activeSegmentCount
        (runTopicOps initialTopicState
          [.create 1 [], .create 2 []]) ≤ 1) := by
  decide

/-- C9 amended: a completed topic segment never returns to active under any
further sequence of create/complete operations; however, the code does not
enforce the at-most-one-active bound: `createTopicSegment` always adds one
active segment (incrementing the active count even when a segment is already
active), while `completeTopicSegment` never increases it — so at most one
segment is active only as long as every create is performed while no segment
is active. -/
theorem topic_completed_never_reopens_active_accounting :
    (∀ (ops : List TopicOp) (st : TopicState) (seg : TopicSegment),
      st.wf → seg ∈ st.segments → seg.status = .completed →
      ∀ s ∈ (runTopicOps st ops).segments, s.id = seg.id →
        s.status = .completed) ∧
    (∀ (st : TopicState) (startMessageId : Nat) (themes : List String),
      activeSegmentCount (createTopicSegment st startMessageId themes).1 =
        activeSegmentCount st + 1) ∧
    (∀ (st : TopicState) (topicId endMessageId : Nat)
        (summary : Option String),
      activeSegmentCount
          (completeTopicSegment st topicId endMessageId summary) ≤
        activeSegmentCount st) ∧
    (∀ ops : List TopicOp, (runTopicOps initialTopicState ops).wf) := by
  refine ⟨?_, createTopicSegment_active_count,
    completeTopicSegment_active_count, ?_⟩
  · intro ops st seg hwf hmem hcomp
    refine runTopicOps_completed_stays ops st seg.id (hwf.1 seg hmem) ?_
    intro s hs hid
    have hse : s = seg := List.inj_on_of_nodup_map hwf.2 hs hmem hid
    rw [hse]
    exact hcomp
  · intro ops
    induction ops using List.reverseRecOn with
    | nil =>
      refine ⟨fun s hs => ?_, ?_⟩
      · simp [runTopicOps, initialTopicState] at hs
      · simp [runTopicOps, initialTopicState]
    | append_singleton ops op ih =>
      have : runTopicOps initialTopicState (ops ++ [op]) =
          applyTopicOp (runTopicOps initialTopicState ops) op := by
        simp [runTopicOps]
      rw [this]
      exact applyTopicOp_wf _ op ih

/-! ## Claims about the single-vector operations and the retry policy -/

theorem withRetryGo_succ {α : Type} (op : Nat → Except VErr α)
    (etype : VectorStoreErrorType) (emsg : String) (attempt fuel : Nat)
    (delays : List Nat) :
    withRetryGo op etype emsg attempt (fuel + 1) delays =
      match op attempt with
      | .ok v => { result := .ok v, attempts := attempt, delays := delays }
      | .error e =>
          if etype = .validationError then
            { result := .error (handleError e etype emsg)
              attempts := attempt, delays := delays }
          else if attempt = DEFAULT_RETRY_CONFIG.maxAttempts then
            { result := .error (handleError e etype emsg)
              attempts := attempt, delays := delays }
          else
            withRetryGo op etype emsg (attempt + 1) fuel
              (delays ++ [DEFAULT_RETRY_CONFIG.backoffMs * 2 ^ (attempt - 1)]) :=
  rfl

theorem withRetry_all_fail_trace {α : Type} (es : Nat → VErr)
    (etype : VectorStoreErrorType) (emsg : String)
    (hne : etype ≠ .validationError) :
    withRetry (α := α) (fun n => .error (es n)) etype emsg =
      { result := .error (handleError (es 3) etype emsg)
        attempts := 3
        delays := [1000, 2000] } := by
  show withRetryGo (fun n => .error (es n)) etype emsg 1 3 [] = _
  simp only [withRetryGo_succ, if_neg hne, DEFAULT_RETRY_CONFIG]
  norm_num

def shortEntry : VectorEntry := { id := "v1", vector := [0, 0], metadata := [] }

/-- C2 counterexample: a dimensionality mismatch in `upsertVector` is not
surfaced as a validation error marked non-retryable: on the KNOWLEDGE index
(1024 dimensions) with a 2-component vector, the surfaced error is classified
OPERATION_ERROR with `retryable = true` (though indeed no provider call is
made). -/
theorem upsertVector_wrongdim_marked_retryable :
    exceptErrType (upsertVector "KNOWLEDGE" shortEntry
        (fun _ => .ok ())).result = some .operationError ∧
    exceptErrRetryable (upsertVector "KNOWLEDGE" shortEntry
        (fun _ => .ok ())).result = some true ∧
    (upsertVector "KNOWLEDGE" shortEntry (fun _ => .ok ())).providerCalls
      = 0 := by
  refine ⟨?_, ?_, ?_⟩ <;> rfl

/-- C2 amended: for every configured index and every vector whose length
differs from the configured dimensionality, `upsertVector` and `queryVectors`
fail immediately — zero provider calls and zero retry delays — but the
surfaced wrapped error is classified OPERATION_ERROR with `retryable = true`,
not as a non-retryable validation error. -/
theorem dimension_guard_fails_before_provider_call
    (indexName : String) (cfgDims : Nat) (entry : VectorEntry)
    (vector : List Rat) (options : QueryOptions)
    (up : Nat → Except VErr Unit)
    (qp : Nat → Except VErr (List SimilaritySearchResult))
    (hdim : getIndexDimensionsOpt indexName = some cfgDims)
    (hu : entry.vector.length ≠ cfgDims)
    (hq : vector.length ≠ cfgDims) :
    (upsertVector indexName entry up).providerCalls = 0 ∧
    (upsertVector indexName entry up).delays = [] ∧
    exceptErrType (upsertVector indexName entry up).result =
      some .operationError ∧
    exceptErrRetryable (upsertVector indexName entry up).result = some true ∧
    (queryVectors indexName vector options qp).providerCalls = 0 ∧
    (queryVectors indexName vector options qp).delays = [] ∧
    exceptErrType (queryVectors indexName vector options qp).result =
      some .operationError ∧
    exceptErrRetryable (queryVectors indexName vector options qp).result =
      some true := by
  have hval : validateVector indexName entry.vector =
      .error (.err "Vector dimensions mismatch") := by
    unfold validateVector
    rw [hdim]
    simp [hu]
  have hvalq : validateVector indexName vector =
      .error (.err "Vector dimensions mismatch") := by
    unfold validateVector
    rw [hdim]
    simp [hq]
  simp only [upsertVector, queryVectors, hval, hvalq]
  decide

/-- Witness for the amended dimensionality-guard theorem at concrete inputs:
the KNOWLEDGE index is configured with 1024 dimensions, the fixture entry has
2 components, and the query vector has 1 component. -/
theorem dimension_guard_witness :
    shortEntry.vector.length ≠ 1024 ∧
    (queryVectors "KNOWLEDGE" [1] { topK := none, threshold := none }
        (fun _ => .ok [])).providerCalls = 0 ∧
    exceptErrRetryable (upsertVector "KNOWLEDGE" shortEntry
        (fun _ => .ok ())).result = some true :=
  have h := dimension_guard_fails_before_provider_call "KNOWLEDGE" 1024
    shortEntry [1] { topK := none, threshold := none }
    (fun _ => .ok ()) (fun _ => .ok [])
    (by decide) (by decide) (by decide)
  ⟨by decide, h.2.2.2.2.1, h.2.2.2.1⟩

/-- C5: when every attempt of a retried vector operation fails and the
configured error type is not validation-classified, `withRetry` performs
exactly `maxAttempts` (3) attempts, inserting the delay
`backoffMs * 2 ^ (i - 2)` before attempt i (1000 ms then 2000 ms), and then
surfaces the last original error wrapped by `handleError` with its retryable
classification; a validation-classified failure is never retried — exactly
one attempt, no delay. A single-vector upsert whose provider always fails
shows the same trace through `upsertVector`. -/
theorem retry_policy_shape {α : Type} (es : Nat → VErr)
    (etype : VectorStoreErrorType) (emsg : String) (entry : VectorEntry)
    (hne : etype ≠ .validationError)
    (hlen : entry.vector.length = 1024) :
    ((withRetry (α := α) (fun n => .error (es n)) etype emsg).attempts =
        DEFAULT_RETRY_CONFIG.maxAttempts ∧
      (withRetry (α := α) (fun n => .error (es n)) etype emsg).delays =
        [DEFAULT_RETRY_CONFIG.backoffMs * 2 ^ 0,
         DEFAULT_RETRY_CONFIG.backoffMs * 2 ^ 1] ∧
      (withRetry (α := α) (fun n => .error (es n)) etype emsg).result =
        .error (handleError (es DEFAULT_RETRY_CONFIG.maxAttempts) etype
          emsg)) ∧
    ((withRetry (α := α) (fun n => .error (es n)) .validationError
        emsg).attempts = 1 ∧
      (withRetry (α := α) (fun n => .error (es n)) .validationError
        emsg).delays = []) ∧
    ((upsertVector "KNOWLEDGE" entry (fun n => .error (es n))).providerCalls =
        DEFAULT_RETRY_CONFIG.maxAttempts ∧
      (upsertVector "KNOWLEDGE" entry (fun n => .error (es n))).delays =
        [1000, 2000] ∧
      exceptIsError (upsertVector "KNOWLEDGE" entry
        (fun n => .error (es n))).result = true) := by
  have key := withRetry_all_fail_trace (α := α) es etype emsg hne
  have keyu := withRetry_all_fail_trace (α := Unit) es .operationError
    "Failed to upsert vector" (by decide)
  have hval : validateVector "KNOWLEDGE" entry.vector = .ok () := by
    unfold validateVector getIndexDimensionsOpt VECTOR_INDICES
    simp [hlen]
  refine ⟨⟨?_, ?_, ?_⟩, ⟨?_, ?_⟩, ⟨?_, ?_, ?_⟩⟩
  · rw [key]
    rfl
  · rw [key]
    norm_num [DEFAULT_RETRY_CONFIG]
  · rw [key]
    rfl
  · rfl
  · rfl
  · simp only [upsertVector, hval, keyu]
    rfl
  · simp only [upsertVector, hval, keyu]
  · simp only [upsertVector, hval, keyu]
    rfl

/-- Witness for the retry-shape theorem: a provider that always throws a
plain error, an OPERATION_ERROR config, and a correctly-sized (1024) entry. -/
theorem retry_policy_shape_witness :
    VectorStoreErrorType.operationError ≠ .validationError ∧
    (withRetry (α := Unit) (fun _ => .error (.err "boom"))
        .operationError "m").attempts = DEFAULT_RETRY_CONFIG.maxAttempts :=
  have h := retry_policy_shape (α := Unit) (fun _ => .err "boom")
    .operationError "m"
    { id := "x", vector := List.replicate 1024 0, metadata := [] }
    (by decide) (List.length_replicate 1024 0)
  ⟨by decide, h.1.1⟩

/-! ## Claims about the batch operations: structural lemmas -/

theorem createBatchChunksGo_nil {α : Type} (start : Nat) :
    createBatchChunksGo ([] : List α) start = [] := by
  rw [createBatchChunksGo]

theorem concurrencyGroups_nil {α : Type} :
    concurrencyGroups ([] : List α) = [] := by
  rw [concurrencyGroups]

theorem createBatchChunksGo_flatten {α : Type} :
    ∀ (n : Nat) (l : List α) (start : Nat), l.length ≤ n →
      (createBatchChunksGo l start).flatMap (·.items) = l := by
  intro n
  induction n with
  | zero =>
    intro l start hl
    rw [List.eq_nil_of_length_eq_zero (Nat.le_zero.mp hl),
      createBatchChunksGo_nil]
    rfl
  | succ n ih =>
    intro l start hl
    cases l with
    | nil =>
      rw [createBatchChunksGo_nil]
      rfl
    | cons x xs =>
      rw [createBatchChunksGo]
      simp only [List.flatMap_cons]
      rw [ih ((x :: xs).drop BATCH_CONFIG.CHUNK_SIZE) _ (by
        simp only [BATCH_CONFIG, List.length_drop, List.length_cons]
        simp only [List.length_cons] at hl
        omega)]
      exact List.take_append_drop _ _

theorem createBatchChunks_flatten {α : Type} (l : List α) :
    (createBatchChunks l).flatMap (·.items) = l :=
  createBatchChunksGo_flatten l.length l 0 (Nat.le_refl _)

theorem createBatchChunks_sizes {α : Type} (l : List α) :
    ((createBatchChunks l).map (·.items.length)).sum = l.length := by
  have h := congrArg List.length (createBatchChunks_flatten l)
  rwa [List.length_flatMap] at h

theorem createBatchChunksGo_shape {α : Type} :
    ∀ (n : Nat) (l : List α) (start : Nat), l.length ≤ n →
      ∀ c ∈ createBatchChunksGo l start,
        c.items ≠ [] ∧ c.items.length ≤ BATCH_CONFIG.CHUNK_SIZE ∧
        ∃ k, c.startIndex = start + BATCH_CONFIG.CHUNK_SIZE * k ∧
          c.items = (l.drop (BATCH_CONFIG.CHUNK_SIZE * k)).take
            BATCH_CONFIG.CHUNK_SIZE := by
  intro n
  induction n with
  | zero =>
    intro l start hl c hc
    rw [List.eq_nil_of_length_eq_zero (Nat.le_zero.mp hl),
      createBatchChunksGo_nil] at hc
    simp at hc
  | succ n ih =>
    intro l start hl c hc
    cases l with
    | nil =>
      rw [createBatchChunksGo_nil] at hc
      simp at hc
    | cons x xs =>
      rw [createBatchChunksGo] at hc
      rcases List.mem_cons.mp hc with rfl | hmem
      · refine ⟨by simp [BATCH_CONFIG], by simpa using List.length_take_le _ _,
          0, by simp, by simp⟩
      · obtain ⟨hne, hlen, k, hstart, hitems⟩ := ih
          ((x :: xs).drop BATCH_CONFIG.CHUNK_SIZE)
          (start + BATCH_CONFIG.CHUNK_SIZE) (by
            simp only [BATCH_CONFIG, List.length_drop, List.length_cons]
            simp only [List.length_cons] at hl
            omega) c hmem
        refine ⟨hne, hlen, k + 1, by rw [hstart]; ring, ?_⟩
        rw [hitems, List.drop_drop]
        congr 1
        ring

theorem concurrencyGroups_flatten {α : Type} :
    ∀ (n : Nat) (l : List α), l.length ≤ n →
      (concurrencyGroups l).flatMap id = l := by
  intro n
  induction n with
  | zero =>
    intro l hl
    rw [List.eq_nil_of_length_eq_zero (Nat.le_zero.mp hl),
      concurrencyGroups_nil]
    rfl
  | succ n ih =>
    intro l hl
    cases l with
    | nil =>
      rw [concurrencyGroups_nil]
      rfl
    | cons x xs =>
      rw [concurrencyGroups]
      simp only [List.flatMap_cons, id]
      rw [ih ((x :: xs).drop BATCH_CONFIG.MAX_CONCURRENT_BATCHES) (by
        simp only [BATCH_CONFIG, List.length_drop, List.length_cons]
        simp only [List.length_cons] at hl
        omega)]
      exact List.take_append_drop _ _

theorem concurrencyGroups_bound {α : Type} :
    ∀ (n : Nat) (l : List α), l.length ≤ n →
      ∀ g ∈ concurrencyGroups l,
        g.length ≤ BATCH_CONFIG.MAX_CONCURRENT_BATCHES := by
  intro n
  induction n with
  | zero =>
    intro l hl g hg
    rw [List.eq_nil_of_length_eq_zero (Nat.le_zero.mp hl),
      concurrencyGroups_nil] at hg
    simp at hg
  | succ n ih =>
    intro l hl g hg
    cases l with
    | nil =>
      rw [concurrencyGroups_nil] at hg
      simp at hg
    | cons x xs =>
      rw [concurrencyGroups] at hg
      rcases List.mem_cons.mp hg with rfl | hmem
      · simpa using List.length_take_le _ _
      · exact ih ((x :: xs).drop BATCH_CONFIG.MAX_CONCURRENT_BATCHES) (by
          simp only [BATCH_CONFIG, List.length_drop, List.length_cons]
          simp only [List.length_cons] at hl
          omega) g hmem

theorem flatMap_map_eq {α β : Type} (gs : List (List α)) (f : α → β) :
    gs.flatMap (fun g => g.map f) = (gs.flatMap id).map f := by
  induction gs with
  | nil => rfl
  | cons g gs ih => simp [ih]

theorem flatMap_if_filter {α β : Type} (l : List α) (p : α → Bool)
    (f : α → β) :
    l.flatMap (fun a => if p a then [] else [f a]) =
      (l.filter (fun a => !p a)).map f := by
  induction l with
  | nil => rfl
  | cons x xs ih =>
    by_cases hx : p x = true
    · simp [hx, ih]
    · simp only [Bool.not_eq_true] at hx
      simp [hx, ih]

def badChunk (d : Nat) (c : BatchChunk VectorEntry) : Bool :=
  c.items.any (fun it => it.vector.length != d)

theorem validateChunkItems_foldl_isError (indexName : String) (d : Nat)
    (hdim : getIndexDimensionsOpt indexName = some d) :
    ∀ (items : List VectorEntry) (acc : Except VErr Unit),
      exceptIsError (items.foldl
        (fun a it => a.bind (fun _ => validateVector indexName it.vector))
        acc) =
      (exceptIsError acc || items.any (fun it => it.vector.length != d)) := by
  intro items
  induction items with
  | nil => intro acc; simp
  | cons x xs ih =>
    intro acc
    simp only [List.foldl_cons, List.any_cons]
    rw [ih]
    have hhead : exceptIsError (acc.bind
        (fun _ => validateVector indexName x.vector)) =
        (exceptIsError acc || (x.vector.length != d)) := by
      cases acc with
      | error e => rfl
      | ok v =>
        have hb : (Except.ok v).bind
            (fun _ => validateVector indexName x.vector) =
            validateVector indexName x.vector := rfl
        rw [hb]
        unfold validateVector
        rw [hdim]
        by_cases hx : x.vector.length = d
        · simp [hx, exceptIsError]
        · simp [hx, exceptIsError]
    rw [hhead, Bool.or_assoc]

theorem validateChunkItems_of_good (indexName : String) (d : Nat)
    (hdim : getIndexDimensionsOpt indexName = some d)
    (items : List VectorEntry)
    (hgood : items.any (fun it => it.vector.length != d) = false) :
    validateChunkItems indexName items = .ok () := by
  have h := validateChunkItems_foldl_isError indexName d hdim items (.ok ())
  rw [hgood] at h
  unfold validateChunkItems
  cases hfold : items.foldl
      (fun (a : Except VErr Unit) it =>
        a.bind (fun _ => validateVector indexName it.vector))
      (Except.ok ()) with
  | ok u => cases u; rfl
  | error e =>
    rw [hfold] at h
    simp [exceptIsError] at h

theorem validateChunkItems_of_bad (indexName : String) (d : Nat)
    (hdim : getIndexDimensionsOpt indexName = some d)
    (items : List VectorEntry)
    (hbad : items.any (fun it => it.vector.length != d) = true) :
    ∃ e, validateChunkItems indexName items = .error e := by
  have h := validateChunkItems_foldl_isError indexName d hdim items (.ok ())
  rw [hbad] at h
  unfold validateChunkItems
  cases hfold : items.foldl
      (fun (a : Except VErr Unit) it =>
        a.bind (fun _ => validateVector indexName it.vector))
      (Except.ok ()) with
  | ok u =>
    rw [hfold] at h
    simp [exceptIsError] at h
  | error e => exact ⟨e, rfl⟩

theorem processBatchChunk_good (indexName : String) (d : Nat)
    (hdim : getIndexDimensionsOpt indexName = some d)
    (c : BatchChunk VectorEntry) (hgood : badChunk d c = false) :
    processBatchChunk indexName .upsert c (fun _ => .ok ()) =
      ({ success := true, failedIndices := [], error := none
         stats := { processedItems := c.items.length
                    successfulItems := c.items.length
                    failedItems := 0 } },
       [ProviderCall.upsertCall c.items]) := by
  have hv := validateChunkItems_of_good indexName d hdim c.items hgood
  simp only [processBatchChunk, hv]
  rfl

theorem processBatchChunk_bad (indexName : String) (d : Nat)
    (hdim : getIndexDimensionsOpt indexName = some d)
    (c : BatchChunk VectorEntry) (hbad : badChunk d c = true) :
    (processBatchChunk indexName .upsert c (fun _ => .ok ())).1.success =
        false ∧
    (processBatchChunk indexName .upsert c (fun _ => .ok ())).1.failedIndices =
        (List.range c.items.length).map (fun i => c.startIndex + i) ∧
    (processBatchChunk indexName .upsert c (fun _ => .ok ())).2 = [] := by
  obtain ⟨e, hv⟩ := validateChunkItems_of_bad indexName d hdim c.items hbad
  refine ⟨?_, ?_, ?_⟩ <;>
    simp [processBatchChunk, hv]

theorem flatMap_after_map {α β γ : Type} (l : List α) (f : α → β)
    (g : β → List γ) :
    (l.map f).flatMap g = l.flatMap (fun a => g (f a)) := by
  induction l with
  | nil => rfl
  | cons x xs ih => simp [ih]

theorem map_filter_comm {α β : Type} (l : List α) (f : α → β) (p : β → Bool) :
    (l.map f).filter p = (l.filter (fun a => p (f a))).map f := by
  induction l with
  | nil => rfl
  | cons x xs ih =>
    by_cases hx : p (f x) = true
    · simp [hx, ih]
    · simp only [Bool.not_eq_true] at hx
      simp [hx, ih]

theorem flatMap_congr_mem {α β : Type} (l : List α) (f g : α → List β)
    (h : ∀ a ∈ l, f a = g a) : l.flatMap f = l.flatMap g := by
  induction l with
  | nil => rfl
  | cons x xs ih =>
    simp only [List.flatMap_cons]
    rw [h x (List.mem_cons_self x xs), ih (fun a ha =>
      h a (List.mem_cons_of_mem x ha))]

theorem map_fst_error_pairs (l : List BatchResult) (g : BatchResult → VErr) :
    ((l.flatMap (fun r => r.failedIndices.map (fun i => (i, g r)))).map
        Prod.fst) =
      l.flatMap (·.failedIndices) := by
  induction l with
  | nil => rfl
  | cons r rs ih =>
    simp only [List.flatMap_cons, List.map_append, List.map_map, ih]
    rw [show (Prod.fst ∘ fun i => (i, g r)) = @id Nat from rfl, List.map_id]

theorem processBatchChunks_ok_provider (indexName : String) (d : Nat)
    (hdim : getIndexDimensionsOpt indexName = some d)
    (chunks : List (BatchChunk VectorEntry)) :
    ((processBatchChunks indexName .upsert chunks
        (fun _ _ => .ok ())).1.errors.map Prod.fst =
      (chunks.filter (badChunk d)).flatMap
        (fun c => (List.range c.items.length).map
          (fun i => c.startIndex + i))) ∧
    ((processBatchChunks indexName .upsert chunks (fun _ _ => .ok ())).2 =
      (chunks.filter (fun c => !badChunk d c)).map
        (fun c => ProviderCall.upsertCall c.items)) ∧
    ((processBatchChunks indexName .upsert chunks
        (fun _ _ => .ok ())).1.success =
      ((processBatchChunks indexName .upsert chunks
        (fun _ _ => .ok ())).1.errors.length == 0)) := by
  have hpairs : (concurrencyGroups chunks).flatMap
      (fun g => g.map (fun c => processBatchChunk indexName .upsert c
        (fun _ => .ok ()))) =
      chunks.map (fun c => processBatchChunk indexName .upsert c
        (fun _ => .ok ())) := by
    rw [flatMap_map_eq, concurrencyGroups_flatten chunks.length chunks
      (Nat.le_refl _)]
  have hsucc : ∀ c, (processBatchChunk indexName .upsert c
      (fun _ => .ok ())).1.success = !badChunk d c := by
    intro c
    by_cases h : badChunk d c = true
    · rw [(processBatchChunk_bad indexName d hdim c h).1, h]
      rfl
    · have h' : badChunk d c = false := by simpa using h
      rw [processBatchChunk_good indexName d hdim c h', h']
      rfl
  have hcalls : (fun c => (processBatchChunk indexName .upsert c
      (fun _ => .ok ())).2) =
      (fun c => if badChunk d c then []
        else [ProviderCall.upsertCall c.items]) := by
    funext c
    by_cases h : badChunk d c = true
    · rw [(processBatchChunk_bad indexName d hdim c h).2.2, h]
      rfl
    · have h' : badChunk d c = false := by simpa using h
      rw [processBatchChunk_good indexName d hdim c h', h']
      rfl
  have hpred : (fun c => !(processBatchChunk indexName .upsert c
      (fun _ => .ok ())).1.success) = badChunk d := by
    funext c
    rw [hsucc c, Bool.not_not]
  refine ⟨?_, ?_, rfl⟩
  · simp only [processBatchChunks]
    rw [hpairs, map_fst_error_pairs, List.map_map, map_filter_comm]
    simp only [Function.comp]
    rw [hpred, flatMap_after_map]
    exact flatMap_congr_mem _ _ _ (fun c hc =>
      (processBatchChunk_bad indexName d hdim c
        (List.of_mem_filter hc)).2.1)
  · simp only [processBatchChunks]
    rw [hpairs, flatMap_after_map, hcalls, flatMap_if_filter]

def plainEntry : VectorEntry := { id := "x", vector := [], metadata := [] }

def entries21 : List VectorEntry := List.replicate 21 plainEntry

/-- C6 counterexample: `deleteBatch` does not split a valid batch into
fixed-size chunks: on a valid 21-entry batch it issues exactly one provider
delete call carrying all 21 ids, so not every provider call of the run is
bounded by the configured chunk size of 20. -/
theorem deleteBatch_issues_single_unchunked_call :
    ((deleteBatch "KNOWLEDGE" entries21 (fun _ => .ok ())).2.map
        providerCallSize = [21]) ∧
    ¬ (∀ call ∈ (deleteBatch "KNOWLEDGE" entries21 (fun _ => .ok ())).2,
        providerCallSize call ≤ BATCH_CONFIG.CHUNK_SIZE) := by
  constructor
  · decide
  · decide

/-- C6 amended: empty and oversized batches are rejected by both `upsertBatch`
and `deleteBatch` before any provider call (wrapped as a batch error, not a
validation-typed error); for a valid batch, `upsertBatch` splits the entries
into consecutive nonempty chunks of at most CHUNK_SIZE (20) items whose
concatenation is the input (sizes summing to the input length, each original
index in exactly one chunk), processes them in groups of at most
MAX_CONCURRENT_BATCHES (3), and — with an always-succeeding provider — issues
exactly one upsert call per chunk; `deleteBatch`, however, performs no
chunking: it issues a single provider delete call carrying every input id. -/
theorem batch_bounds_and_chunking (indexName : String) (d : Nat)
    (entries entriesBig : List VectorEntry)
    (hdim : getIndexDimensionsOpt indexName = some d)
    (hpos : 0 < entries.length)
    (hmax : entries.length ≤ BATCH_CONFIG.MAX_BATCH_SIZE)
    (hall : ∀ it ∈ entries, it.vector.length = d)
    (hbig : entriesBig.length > BATCH_CONFIG.MAX_BATCH_SIZE) :
    (∀ p, exceptIsError (upsertBatch indexName ([] : List VectorEntry) p).1 =
        true ∧ (upsertBatch indexName [] p).2 = []) ∧
    (∀ q, exceptIsError (deleteBatch indexName ([] : List VectorEntry) q).1 =
        true ∧ (deleteBatch indexName [] q).2 = []) ∧
    (∀ p, exceptIsError (upsertBatch indexName entriesBig p).1 = true ∧
        (upsertBatch indexName entriesBig p).2 = []) ∧
    (∀ q, exceptIsError (deleteBatch indexName entriesBig q).1 = true ∧
        (deleteBatch indexName entriesBig q).2 = []) ∧
    ((createBatchChunks entries).flatMap (·.items) = entries) ∧
    (((createBatchChunks entries).map (·.items.length)).sum =
        entries.length) ∧
    (∀ c ∈ createBatchChunks entries,
        c.items ≠ [] ∧ c.items.length ≤ BATCH_CONFIG.CHUNK_SIZE) ∧
    (∀ g ∈ concurrencyGroups (createBatchChunks entries),
        g.length ≤ BATCH_CONFIG.MAX_CONCURRENT_BATCHES) ∧
    ((upsertBatch indexName entries (fun _ _ => .ok ())).2 =
        (createBatchChunks entries).map
          (fun c => ProviderCall.upsertCall c.items)) ∧
    ((deleteBatch indexName entries (fun _ => .ok ())).2 =
        [ProviderCall.deleteCall (entries.map (·.id))]) := by
  have h0 : ¬(entries.length = 0) := by omega
  have hm : ¬(entries.length > BATCH_CONFIG.MAX_BATCH_SIZE) := by omega
  have hb0 : ¬(entriesBig.length = 0) := by
    simp only [BATCH_CONFIG] at hbig
    omega
  have hex : indexExists indexName = true := by
    unfold indexExists
    rw [show VECTOR_INDICES.lookup indexName = some d from hdim]
    rfl
  refine ⟨fun p => ⟨rfl, rfl⟩, fun q => ⟨rfl, rfl⟩, ?_, ?_, ?_, ?_, ?_, ?_,
    ?_, ?_⟩
  · intro p
    simp only [upsertBatch]
    rw [if_neg hb0, if_pos hbig]
    exact ⟨rfl, rfl⟩
  · intro q
    simp only [deleteBatch]
    rw [if_neg hb0, if_pos hbig]
    exact ⟨rfl, rfl⟩
  · exact createBatchChunks_flatten entries
  · exact createBatchChunks_sizes entries
  · intro c hc
    obtain ⟨hne, hlen, -⟩ := createBatchChunksGo_shape entries.length entries 0
      (Nat.le_refl _) c hc
    exact ⟨hne, hlen⟩
  · exact concurrencyGroups_bound (createBatchChunks entries).length _
      (Nat.le_refl _)
  · simp only [upsertBatch]
    rw [if_neg h0, if_neg hm, if_pos hex]
    show (processBatchChunks indexName .upsert (createBatchChunks entries)
      (fun _ _ => .ok ())).2 = _
    rw [(processBatchChunks_ok_provider indexName d hdim
      (createBatchChunks entries)).2.1]
    have hgood : ∀ c ∈ createBatchChunks entries, (!badChunk d c) = true := by
      intro c hc
      have hitems : ∀ it ∈ c.items, it.vector.length = d := by
        intro it hit
        exact hall it ((createBatchChunks_flatten entries) ▸
          List.mem_flatMap.mpr ⟨c, hc, hit⟩)
      unfold badChunk
      simp only [Bool.not_eq_true', List.any_eq_false, bne_iff_ne, ne_eq,
        not_not]
      exact hitems
    rw [List.filter_eq_self.mpr hgood]
  · simp only [deleteBatch]
    rw [if_neg h0, if_neg hm, if_pos hex]
    rfl

/-- C10: for a valid batch in which some entry has the wrong dimensionality,
`upsertBatch` (run against an always-succeeding provider) does not throw: it
returns an aggregated result with `success = false` whose failed positions
are exactly all the original indices of the chunks containing a wrong-sized
entry, while every other (sibling) chunk is still sent to the provider; and
every chunk is the literal slice of the input starting at its recorded start
index, so those positions are the entries' original positions. -/
theorem upsertBatch_isolates_failing_chunk (indexName : String) (d : Nat)
    (entries : List VectorEntry)
    (hdim : getIndexDimensionsOpt indexName = some d)
    (hpos : 0 < entries.length)
    (hmax : entries.length ≤ BATCH_CONFIG.MAX_BATCH_SIZE)
    (hbad : ∃ it ∈ entries, it.vector.length ≠ d) :
    (exceptIsError (upsertBatch indexName entries (fun _ _ => .ok ())).1 =
        false) ∧
    (∀ r, (upsertBatch indexName entries (fun _ _ => .ok ())).1 = .ok r →
      r.success = false ∧
      r.errors.map Prod.fst =
        ((createBatchChunks entries).filter (badChunk d)).flatMap
          (fun c => (List.range c.items.length).map
            (fun i => c.startIndex + i))) ∧
    ((upsertBatch indexName entries (fun _ _ => .ok ())).2 =
        ((createBatchChunks entries).filter (fun c => !badChunk d c)).map
          (fun c => ProviderCall.upsertCall c.items)) ∧
    (∀ c ∈ createBatchChunks entries,
        c.items = (entries.drop c.startIndex).take BATCH_CONFIG.CHUNK_SIZE) := by
  have h0 : ¬(entries.length = 0) := by omega
  have hm : ¬(entries.length > BATCH_CONFIG.MAX_BATCH_SIZE) := by omega
  have hex : indexExists indexName = true := by
    unfold indexExists
    rw [show VECTOR_INDICES.lookup indexName = some d from hdim]
    rfl
  have hproj := processBatchChunks_ok_provider indexName d hdim
    (createBatchChunks entries)
  have hrun : upsertBatch indexName entries (fun _ _ => .ok ()) =
      (.ok (processBatchChunks indexName .upsert (createBatchChunks entries)
        (fun _ _ => .ok ())).1,
       (processBatchChunks indexName .upsert (createBatchChunks entries)
        (fun _ _ => .ok ())).2) := by
    simp only [upsertBatch]
    rw [if_neg h0, if_neg hm, if_pos hex]
  obtain ⟨it, hit, hitlen⟩ := hbad
  obtain ⟨c0, hc0, hitc0⟩ := List.mem_flatMap.mp
    ((createBatchChunks_flatten entries).symm ▸ hit)
  have hbadc0 : badChunk d c0 = true := by
    unfold badChunk
    exact List.any_eq_true.mpr ⟨it, hitc0, bne_iff_ne.mpr hitlen⟩
  have hfm : c0.startIndex + 0 ∈
      ((createBatchChunks entries).filter (badChunk d)).flatMap
        (fun c => (List.range c.items.length).map (fun i => c.startIndex + i)) := by
    refine List.mem_flatMap.mpr ⟨c0, List.mem_filter.mpr ⟨hc0, hbadc0⟩, ?_⟩
    exact List.mem_map.mpr ⟨0, List.mem_range.mpr
      (List.length_pos.mpr (List.ne_nil_of_mem hitc0)), rfl⟩
  refine ⟨?_, ?_, ?_, ?_⟩
  · rw [hrun]
    rfl
  · intro r hr
    rw [hrun] at hr
    have hr' := (Except.ok.injEq _ _).mp hr
    subst hr'
    constructor
    · rw [hproj.2.2]
      have hner : (processBatchChunks indexName .upsert
          (createBatchChunks entries) (fun _ _ => .ok ())).1.errors ≠ [] := by
        intro hnil
        have := hproj.1
        rw [hnil] at this
        rw [← this] at hfm
        simp at hfm
      have : (processBatchChunks indexName .upsert
          (createBatchChunks entries) (fun _ _ => .ok ())).1.errors.length ≠
          0 := by
        simpa [List.length_eq_zero] using hner
      exact beq_eq_false_iff_ne.mpr this
    · exact hproj.1
  · rw [hrun]
    exact hproj.2.1
  · intro c hc
    obtain ⟨-, -, k, hstart, hitems⟩ := createBatchChunksGo_shape
      entries.length entries 0 (Nat.le_refl _) c hc
    rw [hitems, hstart]
    simp [Nat.zero_add]

def goodEntry1024 : VectorEntry :=
  { id := "g", vector := List.replicate 1024 0, metadata := [] }

def goodEntries21 : List VectorEntry := List.replicate 21 goodEntry1024

def bigEntries : List VectorEntry := List.replicate 101 plainEntry

def mixedEntries : List VectorEntry :=
  List.replicate 20 goodEntry1024 ++ [shortEntry]

/-- Witness for the batch-bounds-and-chunking theorem at concrete inputs: a
valid 21-entry batch of correctly-sized entries on the KNOWLEDGE index and an
oversized 101-entry batch. -/
theorem batch_bounds_and_chunking_witness :
    (0 : Nat) < goodEntries21.length ∧
    (deleteBatch "KNOWLEDGE" goodEntries21 (fun _ => .ok ())).2 =
      [ProviderCall.deleteCall (goodEntries21.map (·.id))] :=
  have h := batch_bounds_and_chunking "KNOWLEDGE" 1024 goodEntries21
    bigEntries rfl (by decide) (by decide)
    (fun it hit => by
      rw [List.eq_of_mem_replicate hit]
      exact List.length_replicate 1024 0)
    (by decide)
  ⟨by decide, h.2.2.2.2.2.2.2.2.2⟩

/-- Witness for the failing-chunk isolation theorem at a concrete input: a
valid 21-entry batch whose last entry has 2 components instead of 1024. -/
theorem upsertBatch_isolates_failing_chunk_witness :
    shortEntry.vector.length ≠ 1024 ∧
    exceptIsError (upsertBatch "KNOWLEDGE" mixedEntries
        (fun _ _ => .ok ())).1 = false :=
  have h := upsertBatch_isolates_failing_chunk "KNOWLEDGE" 1024 mixedEntries
    rfl (by decide) (by decide)
    ⟨shortEntry, by simp [mixedEntries], by decide⟩
  ⟨by decide, h.1⟩
